import Mathlib

/-!
Verification of the keyphrase-in-SEO-title analysis and the inclusive-language
rule configuration of the wordpress-seo repository.

The central function, `findKeyphraseInSEOTitle`, is embedded from
`src/unnamed/part_000`.  The helper functions it imports (`getWords`,
`matchTextWithWord`, `processExactMatchRequest`, `findTopicFormsInString`,
lodash's `escapeRegExp`) and the inclusive-language helpers
(`includesConsecutiveWords`, `isNotPrecededByException`) are code of the
repository (or of its vendored libraries) that is not part of the provided
sources; each of those is modelled from the specification and marked as such
in its doc comment.  The inclusive-language rule table (phrase lists,
exception lists) is embedded from
`src/packages/yoastseo/src/scoring/assessments/inclusiveLanguage/configuration/otherAssessments.js`.

JavaScript strings are modelled as Lean `String`s; character positions are
character indices (the inputs considered are such that JS UTF-16 code-unit
indices and character indices coincide).  JS numbers used here are integers
and are modelled as `Int`/`Nat`.
-/

namespace WordpressSeo

/-- Modelled from the spec (§4.2 FunctionWordFilter, "locale-aware
lowercasing"): JS `String.prototype.toLocaleLowerCase`.  Modelled as
characterwise ASCII lowercasing; on the inputs considered (basic latin),
locale-aware lowercasing coincides with it. -/
def toLocaleLowerCase (s : String) : String :=
  String.mk (s.toList.map Char.toLower)

/-- Modelled from JS `String.prototype.trim`: strips leading and trailing
whitespace. -/
def isWhitespaceChar (c : Char) : Bool :=
  c = ' ' || c = '\t' || c = '\n' || c = '\r'

/-- Modelled from JS `String.prototype.trim`. -/
def trimString (s : String) : String :=
  String.mk (((s.toList.dropWhile isWhitespaceChar).reverse.dropWhile isWhitespaceChar).reverse)

/-- Modelled from the spec (§4.1 WordTokenizer / the
`WORD_BOUNDARY_WITH_HYPHEN` boundary policy imported from
`config/wordBoundariesWithoutPunctuation`): separators are whitespace,
hyphens and en-dashes. -/
def WORD_BOUNDARY_WITH_HYPHEN : List Char :=
  [' ', '\t', '\n', '\r', '-', '–']

/-- Modelled from the spec (§4.1, plain-whitespace boundary policy). -/
def WORD_BOUNDARY_PLAIN : List Char :=
  [' ', '\t', '\n', '\r']

/-- Splits a character list at the boundary characters, accumulating the
current (reversed) word.  Auxiliary for `getWords`. -/
def splitWordsAux (wordBoundary : List Char) : List Char → List Char → List (List Char)
  | cur, [] => [cur.reverse]
  | cur, c :: rest =>
    if wordBoundary.contains c then cur.reverse :: splitWordsAux wordBoundary [] rest
    else splitWordsAux wordBoundary (c :: cur) rest

/-- Modelled from the spec (§4.1 WordTokenizer): splits a string into word
tokens at the characters of the given boundary policy, dropping empty
tokens; preserves token order; empty input yields an empty sequence. -/
def getWords (text : String) (wordBoundary : List Char) : List String :=
  ((splitWordsAux wordBoundary [] text.toList).map (fun cs => String.mk cs)).filter
    (fun w => w ≠ "")

/-- The characters escaped by lodash's `escapeRegExp`
(`^ $ . * + ? ( ) [ ] \x7b \x7d | \\`). -/
def regExpSpecialChars : List Char :=
  ['\\', '^', '$', '.', '*', '+', '?', '(', ')', '[', ']', '\x7b', '\x7d', '|']

/-- Escape of a single character: a backslash is put before a regex
metacharacter. -/
def escapeChar (c : Char) : List Char :=
  if regExpSpecialChars.contains c then ['\\', c] else [c]

/-- Characterwise escaping, auxiliary for `escapeRegExp`. -/
def escapeRegExpList : List Char → List Char
  | [] => []
  | c :: cs => escapeChar c ++ escapeRegExpList cs

/-- Modelled from the spec (§4.4, "escaping of regex metacharacters"):
lodash's `escapeRegExp`, which puts a backslash before every regex
metacharacter of its argument. -/
def escapeRegExp (s : String) : String :=
  String.mk (escapeRegExpList s.toList)

/-- First index at which `pat` occurs as a contiguous sublist of `text`,
or `none`. -/
def indexOfSubstring (pat : List Char) : List Char → Option Nat
  | [] => if pat.isEmpty then some 0 else none
  | c :: rest =>
    if pat.isPrefixOf (c :: rest) then some 0
    else (indexOfSubstring pat rest).map (· + 1)

/-- Fuel-based scan counting non-overlapping occurrences of `pat`: after a
match the scan resumes after the matched characters.  The fuel only bounds
the recursion (each step consumes at least one character, so any fuel above
the text length is enough); it makes the recursion structural so that the
function reduces inside the kernel. -/
def countOccurrencesAux (pat : List Char) : Nat → List Char → Nat
  | 0, _ => 0
  | _ + 1, [] => if pat.isEmpty then 1 else 0
  | fuel + 1, c :: rest =>
    if pat.isPrefixOf (c :: rest) then
      1 + countOccurrencesAux pat fuel (List.drop (pat.length - 1) rest)
    else countOccurrencesAux pat fuel rest

/-- Number of non-overlapping occurrences of `pat` in `text` (an empty
pattern matches at every position). -/
def countOccurrences (pat text : List Char) : Nat :=
  countOccurrencesAux pat (text.length + 1) text

/-- Result of `wordMatch` (the `PhraseLocator`): an occurrence count and the
character offset of the first occurrence (`-1` when there is none). -/
structure WordMatchResult where
  count : Nat
  position : Int
deriving DecidableEq, Repr

/-- Modelled from the spec (§4.4 PhraseLocator, the imported
`matchTextWithWord` helper): locale-aware, case-insensitive (unless
`caseSensitive`) substring search.  The locator escapes regex metacharacters
of its `wordToMatch` argument before matching, so the argument string is
searched for literally — in particular, backslashes already present in the
argument (e.g. inserted by a caller's own `escapeRegExp`) are searched for as
literal characters.  `position` is the character offset of the first match,
`-1` if `count = 0`. -/
def wordMatch (text wordToMatch : String) (locale : String) (caseSensitive : Bool) : WordMatchResult :=
  let t := if caseSensitive then text else toLocaleLowerCase text
  let w := if caseSensitive then wordToMatch else toLocaleLowerCase wordToMatch
  { count := countOccurrences w.toList t.toList,
    position :=
      match indexOfSubstring w.toList t.toList with
      | some i => (i : Int)
      | none => -1 }

/-- Result of `processExactMatchRequest`. -/
structure ExactMatchRequest where
  exactMatchRequested : Bool
  keyphrase : String
deriving DecidableEq, Repr

/-- Quotation marks recognized as wrapping an exact-match request (straight
or typographic double quotes). -/
def isQuotationMark (c : Char) : Bool :=
  c = '"' || c = '“' || c = '”' || c = '„' || c = '‟'

/-- Modelled from the spec (§4.3 ExactMatchRequestParser): a keyphrase fully
wrapped in a pair of quotation marks is unwrapped and flagged as an
exact-match request; otherwise it is returned unchanged with the flag
`false`.  An internal, non-wrapping quotation mark is not a trigger. -/
def processExactMatchRequest (keyphrase : String) : ExactMatchRequest :=
  let cs := keyphrase.toList
  if 2 ≤ cs.length ∧ isQuotationMark (cs.headD ' ') ∧ isQuotationMark (cs.getLastD ' ') then
    { exactMatchRequested := true, keyphrase := String.mk cs.tail.dropLast }
  else
    { exactMatchRequested := false, keyphrase := keyphrase }

/-- Topic forms produced by the morphology collaborator (spec §3
TopicForms): per content word of the keyphrase, the list of its
morphological forms; `synonymsForms` holds the same per synonym. -/
structure TopicForms where
  keyphraseForms : List (List String)
  synonymsForms : List (List (List String))
deriving DecidableEq, Repr

/-- Result of `findTopicFormsInString`. -/
structure TopicFormsResult where
  percentWordMatches : Nat
deriving DecidableEq, Repr

/-- A single form occurs in the text (case-insensitively unless
`caseSensitive`). -/
def formOccursIn (form text : String) (caseSensitive : Bool) : Bool :=
  let f := if caseSensitive then form else toLocaleLowerCase form
  let t := if caseSensitive then text else toLocaleLowerCase text
  countOccurrences f.toList t.toList != 0

/-- Modelled from the spec (§4.6 step 3, the imported
`findTopicFormsInString` helper): the percentage of the keyphrase's content
words at least one of whose morphological forms appears in the text.  With
`useSynonyms = false` only the literal keyphrase's own forms
(`keyphraseForms`) are consulted; the synonym forms are used only when
`useSynonyms = true`. -/
def findTopicFormsInString (topicForms : TopicForms) (text : String) (useSynonyms : Bool)
    (locale : String) (caseSensitive : Bool) : TopicFormsResult :=
  let formsLists :=
    if useSynonyms then topicForms.keyphraseForms ++ topicForms.synonymsForms.flatten
    else topicForms.keyphraseForms
  let total := formsLists.length
  let matched :=
    (formsLists.filter (fun wordForms => wordForms.any (fun form => formOccursIn form text caseSensitive))).length
  { percentWordMatches := if total = 0 then 0 else (100 * matched) / total }

/-- The paper under analysis (spec §3): title, keyphrase and locale. -/
structure Paper where
  keyword : String
  title : String
  locale : String
deriving DecidableEq, Repr

/-- The researcher collaborator: the function-word configuration for the
locale, and the morphology research result (`TopicForms`). -/
structure Researcher where
  functionWords : List String
  morphology : TopicForms
deriving DecidableEq, Repr

/-- The result of `findKeyphraseInSEOTitle` (spec §3 MatchResult). -/
structure MatchResult where
  exactMatchFound : Bool
  allWordsFound : Bool
  position : Int
  exactMatchKeyphrase : Bool
deriving DecidableEq, Repr

/-- In JS every object is truthy; `wordMatch` returns an object, so
`!keywordMatched` in the source is always false. -/
def jsTruthyObj (_ : WordMatchResult) : Bool := true

/-- Reading the `count` property off a JS string yields `undefined`
(strings have no such property). -/
def stringCountProp (_ : String) : Option Nat := none

/-- Reading the `position` property off a JS string yields `undefined`. -/
def stringPositionProp (_ : String) : Option Int := none

/-- JS comparison `x > 0` where `x` may be `undefined`: `undefined > 0`
evaluates to `false`. -/
def jsGtZero : Option Nat → Bool
  | none => false
  | some n => decide (0 < n)

/-- Coercion of a possibly-`undefined` JS number where an `Int` is consumed;
only reached in dead code, the default is immaterial. -/
def jsOptionToInt (o : Option Int) : Int := o.getD 0

/-- Embedded from `src/unnamed/part_000` lines 19–41: lowercases the string,
tokenizes it with the hyphen-inclusive boundary, drops every token whose
trimmed, lowercased form is contained verbatim in `functionWords`, and
reports whether nothing remains.  The module-level `functionWords` variable
of the source is threaded as the first parameter. -/
def stripFunctionWordsFromStart (functionWords : List String) (str : String) : Bool :=
  let str := toLocaleLowerCase str
  let titleWords := getWords (toLocaleLowerCase str) WORD_BOUNDARY_WITH_HYPHEN
  let titleWords := titleWords.filter
    (fun word => ! functionWords.contains (toLocaleLowerCase (trimString word)))
  titleWords.isEmpty

/-- JS `str.substr(0, len)`: the first `len` characters (empty for a
negative `len`). -/
def substrFromZero (s : String) (len : Int) : String :=
  String.mk (s.toList.take len.toNat)

/-- Embedded from `src/unnamed/part_000` lines 51–73: returns the position
unchanged when it is `0` or when there are no function words; otherwise
collapses it to `0` exactly when the part of the title before the position
consists of function words only. -/
def adjustPosition (functionWords : List String) (title : String) (position : Int) : Int :=
  if position = 0 then position
  else if functionWords.length = 0 then position
  else
    let titleBeforeKeyword := substrFromZero title position
    if stripFunctionWordsFromStart functionWords titleBeforeKeyword then 0
    else position

/-- Embedded from `src/unnamed/part_000` lines 87–138.  The module-level
`functionWords` variable is modelled by explicit state passing: the third
argument is its value before the call, the second component of the result
its value after the call (the source reassigns it from the researcher's
configuration as its first statement, line 88, before any use).  The
`jsTruthyObj`/`stringCountProp` detour mirrors the source's
`if ( ! keywordMatched )` fallback branch literally: `wordMatch` returns an
object, which is always truthy, and inside the branch `.count` is read off a
string, which yields `undefined`. -/
def findKeyphraseInSEOTitle (paper : Paper) (researcher : Researcher)
    (prevFunctionWords : List String) : MatchResult × List String :=
  let functionWords := researcher.functionWords
  let keyword0 := escapeRegExp paper.keyword
  let title := paper.title
  let locale := paper.locale
  let exactMatchRequest := processExactMatchRequest keyword0
  let keyword := if exactMatchRequest.exactMatchRequested then exactMatchRequest.keyphrase
    else keyword0
  let result : MatchResult :=
    { exactMatchFound := false, allWordsFound := false, position := -1,
      exactMatchKeyphrase := exactMatchRequest.exactMatchRequested }
  let keywordMatched := wordMatch title keyword locale false
  if 0 < keywordMatched.count then
    ({ result with
        exactMatchFound := true
        allWordsFound := true
        position := adjustPosition functionWords title keywordMatched.position },
     functionWords)
  else if jsTruthyObj keywordMatched = false then
    let keywordMatchedBeforeSanitizing := keyword
    (if jsGtZero (stringCountProp keywordMatchedBeforeSanitizing) then
      { result with
         exactMatchFound := true
         allWordsFound := true
         position := adjustPosition functionWords title
           (jsOptionToInt (stringPositionProp keywordMatchedBeforeSanitizing)) }
     else result,
     functionWords)
  else
    let topicForms := researcher.morphology
    let useSynonyms := false
    let separateWordsMatched := findTopicFormsInString topicForms title useSynonyms locale false
    (if separateWordsMatched.percentWordMatches = 100 then
      { result with allWordsFound := true }
     else result,
     functionWords)

/-- The keyphrase string the first pass actually searches the title for:
the escaped keyphrase, unwrapped when it is a quoted exact-match request
(`src/unnamed/part_000` lines 90–102). -/
def selectedKeyword (paper : Paper) : String :=
  let keyword0 := escapeRegExp paper.keyword
  let exactMatchRequest := processExactMatchRequest keyword0
  if exactMatchRequest.exactMatchRequested then exactMatchRequest.keyphrase else keyword0

/-- An exact occurrence of the (searched form of the) keyphrase exists at
character index `i` of the title, under the case-insensitive matching the
first pass performs. -/
def exactOccurrenceAt (paper : Paper) (i : Nat) : Prop :=
  (toLocaleLowerCase (selectedKeyword paper)).toList.isPrefixOf
    ((toLocaleLowerCase paper.title).toList.drop i)

/-- The token list left over after stripping function words from a string,
following the spec's description of position normalization (§4.5): tokenize
with the hyphen-inclusive boundary policy, strip the tokens matching the
function-word list. -/
def remainingTitleWords (functionWords : List String) (str : String) : List String :=
  (getWords (toLocaleLowerCase (toLocaleLowerCase str)) WORD_BOUNDARY_WITH_HYPHEN).filter
    (fun word => ! functionWords.contains (toLocaleLowerCase (trimString word)))

/-- Embedded from `otherAssessments.js` lines 29–32 and the spec (§4.7): the
helper `includesConsecutiveWords`, which returns the start index of every
contiguous token window of `words` equal to `phrase`. -/
def includesConsecutiveWords (words phrase : List String) : List Nat :=
  (List.range (words.length + 1)).filter
    (fun i => decide ((words.drop i).take phrase.length = phrase))

/-- Modelled from the spec (§4.7, the imported `isNotPrecededByException`
helper): keeps a match unless the token immediately before it is one of the
exception words. -/
def isNotPrecededByException (words : List String) (exceptionWords : List String)
    (matchStart : Nat) : Bool :=
  match matchStart with
  | 0 => true
  | i + 1 => ! exceptionWords.contains (words.getD i "")

/-- Modelled from the spec (§4.7 InclusiveLanguageRuleEngine): tokenization
of the scanned text and of a phrase, at plain whitespace. -/
def tokenizeInclusive (text : String) : List String :=
  getWords text WORD_BOUNDARY_PLAIN

/-- Embedded from `otherAssessments.js` lines 22–33: the `normalPerson`
rule's custom matcher — consecutive-word matches of the phrase, filtered by
the exception predicate for a preceding "mentally" / "behaviorally" /
"behaviourally".  The rule is not case-sensitive, so text and phrase are
lowercased (spec §4.7). -/
def normalPersonMatches (text : String) : List Nat :=
  let words := tokenizeInclusive (toLocaleLowerCase text)
  (includesConsecutiveWords words (tokenizeInclusive (toLocaleLowerCase "normal person"))).filter
    (isNotPrecededByException words ["mentally", "behaviorally", "behaviourally"])

/-- Embedded from `otherAssessments.js` lines 47–55: the `mentallyNormal`
rule has no custom matcher and no `caseSensitive` flag, so the engine's
default applies (spec §4.7): consecutive-word matches of the lowercased
phrase in the lowercased text. -/
def mentallyNormalMatches (text : String) : List Nat :=
  let words := tokenizeInclusive (toLocaleLowerCase text)
  includesConsecutiveWords words (tokenizeInclusive (toLocaleLowerCase "mentally normal"))

/-- Concrete paper for the exact-match scenario (spec §8). -/
def exactMatchPaper : Paper :=
  { keyword := "kitchen sink", title := "Best Kitchen Sink Reviews", locale := "en_US" }

/-- Concrete paper with no occurrence of the keyphrase in the title. -/
def noMatchPaper : Paper :=
  { keyword := "kitchen sink", title := "Bathroom Remodeling Tips", locale := "en_US" }

/-- Concrete paper for the coverage-only scenario (spec §8). -/
def coveragePaper : Paper :=
  { keyword := "kitchen sink", title := "Sinks for Kitchens", locale := "en_US" }

/-- Researcher with no function words and the coverage-scenario morphology
forms. -/
def coverageResearcher : Researcher :=
  { functionWords := [],
    morphology := { keyphraseForms := [["kitchen", "kitchens"], ["sink", "sinks"]],
                    synonymsForms := [] } }

/-- Researcher with no function words and empty morphology. -/
def emptyResearcher : Researcher :=
  { functionWords := [], morphology := { keyphraseForms := [], synonymsForms := [] } }

/-- Concrete paper for the pre-sanitization fallback: the keyphrase `.rar`
occurs verbatim in the title, but its escaped form `\.rar` does not. -/
def rarPaper : Paper :=
  { keyword := ".rar", title := "open a .rar file", locale := "en_US" }

/-- Researcher for the `.rar` paper: the morphology collaborator reports the
single content word `.rar` with itself as only form. -/
def rarResearcher : Researcher :=
  { functionWords := [], morphology := { keyphraseForms := [[".rar"]], synonymsForms := [] } }


/-- Spec-side description of the outcome of `findKeyphraseInSEOTitle`
(used to state the claims): the first-pass search decides between the
exact-match result and the coverage result; the third state of the source
(the pre-sanitization fallback) does not appear because it is unreachable. -/
def findKeyphraseOutcome (paper : Paper) (researcher : Researcher) : MatchResult :=
  let req := (processExactMatchRequest (escapeRegExp paper.keyword)).exactMatchRequested
  let km := wordMatch paper.title (selectedKeyword paper) paper.locale false
  if 0 < km.count then
    { exactMatchFound := true, allWordsFound := true,
      position := adjustPosition researcher.functionWords paper.title km.position,
      exactMatchKeyphrase := req }
  else
    { exactMatchFound := false,
      allWordsFound := decide ((findTopicFormsInString researcher.morphology paper.title false
        paper.locale false).percentWordMatches = 100),
      position := -1, exactMatchKeyphrase := req }

/-- A string contains an (ASCII) uppercase character. -/
def hasUpperChar (s : String) : Bool :=
  s.toList.any Char.isUpper


section Lemmas

/-- The fuel-based occurrence count is `0` exactly when the pattern occurs
nowhere, provided the fuel exceeds the text length. -/
theorem countOccurrencesAux_eq_zero_iff (pat : List Char) :
    ∀ (fuel : Nat) (text : List Char), text.length < fuel →
      (countOccurrencesAux pat fuel text = 0 ↔
        ∀ i, ¬ (pat.isPrefixOf (text.drop i) = true)) := by
  intro fuel
  induction fuel with
  | zero => intro text h; omega
  | succ f ih =>
    intro text h
    cases text with
    | nil =>
      simp only [countOccurrencesAux]
      by_cases hp : pat.isEmpty
      · rw [if_pos hp]
        simp only [List.isEmpty_iff] at hp
        subst hp
        constructor
        · intro h0; omega
        · intro hall
          exact absurd (by simp [List.isPrefixOf] : ([] : List Char).isPrefixOf (List.drop 0 []) = true) (hall 0)
      · rw [if_neg hp]
        simp only [List.isEmpty_iff] at hp
        constructor
        · intro _ i hpre
          rw [List.drop_nil] at hpre
          cases pat with
          | nil => exact hp rfl
          | cons a as => simp [List.isPrefixOf] at hpre
        · intro _; rfl
    | cons c rest =>
      simp only [countOccurrencesAux]
      by_cases hpre : pat.isPrefixOf (c :: rest) = true
      · rw [if_pos hpre]
        constructor
        · intro h0; omega
        · intro hall
          exact absurd (by simpa using hpre) (hall 0)
      · rw [if_neg hpre]
        have hlen : rest.length < f := by
          simp only [List.length_cons] at h; omega
        rw [ih rest hlen]
        constructor
        · intro hall i
          cases i with
          | zero => simpa using hpre
          | succ j => simpa using hall j
        · intro hall j
          simpa using hall (j + 1)

/-- `countOccurrences` is `0` exactly when the pattern occurs nowhere in the
text. -/
theorem countOccurrences_eq_zero_iff (pat text : List Char) :
    countOccurrences pat text = 0 ↔ ∀ i, ¬ (pat.isPrefixOf (text.drop i) = true) :=
  countOccurrencesAux_eq_zero_iff pat (text.length + 1) text (by omega)

/-- When `indexOfSubstring` reports an index, the pattern occurs there. -/
theorem indexOfSubstring_some (pat : List Char) :
    ∀ (text : List Char) (i : Nat), indexOfSubstring pat text = some i →
      pat.isPrefixOf (text.drop i) = true := by
  intro text
  induction text with
  | nil =>
    intro i h
    simp only [indexOfSubstring] at h
    by_cases hp : pat.isEmpty
    · rw [if_pos hp] at h
      simp only [List.isEmpty_iff] at hp
      subst hp
      cases h
      simp [List.isPrefixOf]
    · rw [if_neg hp] at h
      cases h
  | cons c rest ih =>
    intro i h
    simp only [indexOfSubstring] at h
    by_cases hpre : pat.isPrefixOf (c :: rest) = true
    · rw [if_pos hpre] at h
      cases h
      simpa using hpre
    · rw [if_neg hpre] at h
      rcases Option.map_eq_some'.mp h with ⟨j, hj, rfl⟩
      simpa using ih j hj

/-- When `indexOfSubstring` reports no index, the pattern occurs nowhere. -/
theorem indexOfSubstring_none (pat : List Char) :
    ∀ (text : List Char), indexOfSubstring pat text = none →
      ∀ i, ¬ (pat.isPrefixOf (text.drop i) = true) := by
  intro text
  induction text with
  | nil =>
    intro h i hpre
    simp only [indexOfSubstring] at h
    by_cases hp : pat.isEmpty
    · rw [if_pos hp] at h; cases h
    · rw [List.drop_nil] at hpre
      simp only [List.isEmpty_iff] at hp
      cases pat with
      | nil => exact hp rfl
      | cons a as => simp [List.isPrefixOf] at hpre
  | cons c rest ih =>
    intro h i hpre
    simp only [indexOfSubstring] at h
    by_cases hp : pat.isPrefixOf (c :: rest) = true
    · rw [if_pos hp] at h; cases h
    · rw [if_neg hp] at h
      rw [Option.map_eq_none'] at h
      cases i with
      | zero => exact hp (by simpa using hpre)
      | succ j => exact ih h j (by simpa using hpre)

/-- A positive occurrence count guarantees that a first index exists. -/
theorem indexOfSubstring_isSome_of_count_pos (pat text : List Char)
    (h : 0 < countOccurrences pat text) : ∃ i, indexOfSubstring pat text = some i := by
  cases hidx : indexOfSubstring pat text with
  | some i => exact ⟨i, rfl⟩
  | none =>
    exfalso
    have hz := (countOccurrences_eq_zero_iff pat text).mpr (indexOfSubstring_none pat text hidx)
    omega

/-- `adjustPosition` only ever returns `0` or its input. -/
theorem adjustPosition_eq_zero_or_self (functionWords : List String) (title : String)
    (position : Int) :
    adjustPosition functionWords title position = 0 ∨
      adjustPosition functionWords title position = position := by
  unfold adjustPosition
  split
  · exact Or.inr rfl
  · split
    · exact Or.inr rfl
    · show (if stripFunctionWordsFromStart functionWords (substrFromZero title position) = true
        then (0 : Int) else position) = 0 ∨
        (if stripFunctionWordsFromStart functionWords (substrFromZero title position) = true
        then (0 : Int) else position) = position
      split
      · exact Or.inl rfl
      · exact Or.inr rfl

/-- Unfolding lemma: the result component of `findKeyphraseInSEOTitle` is the
two-state outcome `findKeyphraseOutcome` (the source's middle branch, the
pre-sanitization fallback, is unreachable: `wordMatch` returns an object and
objects are truthy), and the state component is the researcher's
function-word list. -/
theorem findKeyphraseInSEOTitle_eq (paper : Paper) (researcher : Researcher)
    (prevFunctionWords : List String) :
    findKeyphraseInSEOTitle paper researcher prevFunctionWords =
      (findKeyphraseOutcome paper researcher, researcher.functionWords) := by
  simp only [findKeyphraseInSEOTitle, findKeyphraseOutcome, selectedKeyword, jsTruthyObj]
  split <;> split <;>
    first
      | rfl
      | (rw [if_neg (by simp : ¬ (true = false))]
         split <;> rename_i hpct <;> simp [hpct])

/-- Characterwise escaping distributes over append. -/
theorem escapeRegExpList_append (l1 l2 : List Char) :
    escapeRegExpList (l1 ++ l2) = escapeRegExpList l1 ++ escapeRegExpList l2 := by
  induction l1 with
  | nil => rfl
  | cons c cs ih => simp [escapeRegExpList, ih]

/-- Escaping a nonempty list yields a nonempty list. -/
theorem escapeRegExpList_ne_nil (c : Char) (cs : List Char) :
    escapeRegExpList (c :: cs) ≠ [] := by
  simp only [escapeRegExpList, escapeChar]
  split <;> simp

/-- The first character of an escaped nonempty list: a backslash when the
original first character is a metacharacter, otherwise that character. -/
theorem escapeRegExpList_headD (c : Char) (cs : List Char) (d : Char) :
    (escapeRegExpList (c :: cs)).headD d =
      if regExpSpecialChars.contains c then '\\' else c := by
  simp only [escapeRegExpList, escapeChar]
  split <;> simp

/-- `getLastD` of an append with a nonempty right factor is decided by the
right factor. -/
theorem getLastD_append_cons {α : Type} (l1 : List α) (a : α) (l2 : List α) (d : α) :
    (l1 ++ a :: l2).getLastD d = (a :: l2).getLastD d := by
  induction l1 generalizing d with
  | nil => rfl
  | cons b bs ih =>
    rw [List.cons_append, List.getLastD_cons]
    exact ih b

/-- The last character of an escaped list ending in `c` is `c` itself
(escaping only inserts backslashes before characters). -/
theorem escapeRegExpList_getLastD (l : List Char) (c : Char) (d : Char) :
    (escapeRegExpList (l ++ [c])).getLastD d = c := by
  rw [escapeRegExpList_append]
  have h1 : escapeRegExpList [c] = escapeChar c := by
    simp [escapeRegExpList]
  rw [h1]
  by_cases h : regExpSpecialChars.contains c
  · simp only [escapeChar, if_pos h]
    rw [getLastD_append_cons]
    rfl
  · simp only [escapeChar, if_neg h]
    rw [getLastD_append_cons]
    rfl

/-- The length of an escaped list is at least the original length. -/
theorem escapeRegExpList_length (l : List Char) :
    l.length ≤ (escapeRegExpList l).length := by
  induction l with
  | nil => simp [escapeRegExpList]
  | cons c cs ih =>
    simp only [escapeRegExpList, escapeChar, List.length_cons]
    split <;> simp <;> omega

/-- Quotation marks are not regex metacharacters, so escaping leaves them in
place. -/
theorem isQuotationMark_not_special (c : Char) (h : isQuotationMark c = true) :
    regExpSpecialChars.contains c = false := by
  simp only [isQuotationMark, Bool.or_eq_true, decide_eq_true_eq] at h
  rcases h with ((((h | h) | h) | h) | h) <;> subst h <;> decide

/-- The exact-match flag of `processExactMatchRequest` is the decision of the
quote-wrapping condition. -/
theorem processExactMatchRequest_requested (k : String) :
    (processExactMatchRequest k).exactMatchRequested =
      decide (2 ≤ k.toList.length ∧ isQuotationMark (k.toList.headD ' ') = true ∧
        isQuotationMark (k.toList.getLastD ' ') = true) := by
  simp only [processExactMatchRequest]
  split
  · next h => exact (decide_eq_true h).symm
  · next h => exact (decide_eq_false h).symm

/-- Escaping the keyphrase neither creates nor destroys an exact-match
request: the wrapping quotation marks survive escaping unchanged, and an
escaped single metacharacter starts with a backslash, which is not a
quotation mark. -/
theorem processExactMatchRequest_escapeRegExp (k : String) :
    (processExactMatchRequest (escapeRegExp k)).exactMatchRequested =
      (processExactMatchRequest k).exactMatchRequested := by
  rw [processExactMatchRequest_requested, processExactMatchRequest_requested]
  have htl : (escapeRegExp k).toList = escapeRegExpList k.toList := rfl
  rw [htl]
  rcases hcs : k.toList with _ | ⟨c, rest⟩
  · simp [escapeRegExpList]
  · rcases List.eq_nil_or_concat rest with hrest | ⟨mid, d, hrest⟩
    · subst hrest
      simp only [escapeRegExpList, escapeChar, List.append_nil]
      by_cases h : regExpSpecialChars.contains c
      · rw [if_pos h]
        have hq : isQuotationMark '\\' = false := by decide
        simp [hq]
      · rw [if_neg h]
    · subst hrest
      rw [List.concat_eq_append]
      have hesc : escapeRegExpList (c :: (mid ++ [d])) =
          escapeChar c ++ escapeRegExpList (mid ++ [d]) := rfl
      rw [hesc]
      have hlen2 : 2 ≤ (escapeChar c ++ escapeRegExpList (mid ++ [d])).length := by
        have h1 : 1 ≤ (escapeChar c).length := by
          simp only [escapeChar]; split <;> simp
        have h2 : (mid ++ [d]).length ≤ (escapeRegExpList (mid ++ [d])).length :=
          escapeRegExpList_length _
        simp only [List.length_append] at h2 ⊢
        simp at h2
        omega
      have hlen2' : 2 ≤ (c :: (mid ++ [d])).length := by simp
      have hlast : (escapeChar c ++ escapeRegExpList (mid ++ [d])).getLastD ' ' = d := by
        rw [escapeRegExpList_append]
        have h1 : escapeRegExpList [d] = escapeChar d := by simp [escapeRegExpList]
        rw [h1, ← List.append_assoc]
        by_cases h : regExpSpecialChars.contains d
        · simp only [escapeChar, if_pos h]
          rw [getLastD_append_cons]
          rfl
        · simp only [escapeChar, if_neg h]
          rw [getLastD_append_cons]
          rfl
      have hlast' : (c :: (mid ++ [d])).getLastD ' ' = d := by
        rw [show (c :: (mid ++ [d])) = (c :: mid) ++ [d] by simp]
        rw [getLastD_append_cons]
        rfl
      have hhead : (escapeChar c ++ escapeRegExpList (mid ++ [d])).headD ' ' =
          if regExpSpecialChars.contains c then '\\' else c := by
        rw [← hesc]
        exact escapeRegExpList_headD c (mid ++ [d]) ' '
      rw [hlast, hlast', hhead]
      by_cases h : regExpSpecialChars.contains c
      · rw [if_pos h]
        have hq1 : isQuotationMark '\\' = false := by decide
        have hq2 : isQuotationMark c = false := by
          by_contra hq
          rw [Bool.not_eq_false] at hq
          rw [isQuotationMark_not_special c hq] at h
          cases h
        simp [hq1, hq2, hlen2, hlen2']
      · rw [if_neg h]
        simp only [List.headD_cons]
        have hlen2x : 2 ≤ (escapeChar c).length + (escapeRegExpList (mid ++ [d])).length := by
          simpa using hlen2
        simp [hlen2x, hlen2']

/-- ASCII lowercasing never produces an uppercase character. -/
theorem isUpper_toLower (c : Char) : (Char.toLower c).isUpper = false := by
  rw [Char.toLower]
  show (if c.toNat ≥ 65 ∧ c.toNat ≤ 90 then Char.ofNat (c.toNat + 32) else c).isUpper = false
  by_cases h : c.toNat ≥ 65 ∧ c.toNat ≤ 90
  · rw [if_pos h]
    have hv : (c.toNat + 32).isValidChar := Or.inl (by omega)
    rw [Char.ofNat, dif_pos hv]
    have htn : (Char.ofNatAux (c.toNat + 32) hv).val.toNat = c.toNat + 32 := by
      simp [Char.ofNatAux, UInt32.toNat]
    have h90 : ¬ ((Char.ofNatAux (c.toNat + 32) hv).val ≤ 90) := by
      rw [UInt32.le_def, BitVec.le_def]
      show ¬ ((Char.ofNatAux (c.toNat + 32) hv).val.toNat ≤ (90 : UInt32).toNat)
      rw [htn]
      have h90v : (90 : UInt32).toNat = 90 := rfl
      omega
    simp [Char.isUpper, h90]
  · rw [if_neg h]
    have hd : ¬ ((65 : UInt32) ≤ c.val) ∨ ¬ (c.val ≤ 90) := by
      rw [UInt32.le_def, BitVec.le_def, UInt32.le_def, BitVec.le_def]
      show ¬ ((65 : UInt32).toNat ≤ c.val.toNat) ∨ ¬ (c.val.toNat ≤ (90 : UInt32).toNat)
      have hc : c.toNat = c.val.toNat := rfl
      have h65v : (65 : UInt32).toNat = 65 := rfl
      have h90v : (90 : UInt32).toNat = 90 := rfl
      omega
    rcases hd with h1 | h1 <;> simp [Char.isUpper, h1, GE.ge]

/-- The output of `toLocaleLowerCase` contains no uppercase character. -/
theorem hasUpperChar_toLocaleLowerCase (s : String) :
    hasUpperChar (toLocaleLowerCase s) = false := by
  have h : (toLocaleLowerCase s).toList = s.toList.map Char.toLower := rfl
  simp only [hasUpperChar, h, List.any_map, List.any_eq_false, Function.comp]
  intro c _
  simp [isUpper_toLower c]

/-- The occurrence count computed by the case-insensitive `wordMatch`. -/
theorem wordMatch_count_eq (text wordToMatch locale : String) :
    (wordMatch text wordToMatch locale false).count =
      countOccurrences (toLocaleLowerCase wordToMatch).toList (toLocaleLowerCase text).toList :=
  rfl

/-- The position computed by the case-insensitive `wordMatch`. -/
theorem wordMatch_position_eq (text wordToMatch locale : String) :
    (wordMatch text wordToMatch locale false).position =
      (match indexOfSubstring (toLocaleLowerCase wordToMatch).toList
          (toLocaleLowerCase text).toList with
        | some i => (i : Int)
        | none => -1) :=
  rfl

/-- The all-function-words test is emptiness of the remaining token list. -/
theorem stripFunctionWordsFromStart_eq_remaining (functionWords : List String) (str : String) :
    stripFunctionWordsFromStart functionWords str =
      (remainingTitleWords functionWords str).isEmpty :=
  rfl

/-- With a positive count, the first-pass position is a natural number. -/
theorem wordMatch_position_of_count_pos (text wordToMatch locale : String)
    (h : 0 < (wordMatch text wordToMatch locale false).count) :
    ∃ i : Nat, (wordMatch text wordToMatch locale false).position = (i : Int) := by
  rw [wordMatch_count_eq] at h
  rcases indexOfSubstring_isSome_of_count_pos _ _ h with ⟨i, hi⟩
  refine ⟨i, ?_⟩
  rw [wordMatch_position_eq, hi]

end Lemmas

section Claims

/-- C3: position normalization (`adjustPosition`) returns the raw position
unchanged when the raw position is `0` or the function-word list is empty;
otherwise it tokenizes the part of the title preceding the raw position with
the hyphen-inclusive boundary policy, strips the tokens matching the
function-word list, returns `0` if no tokens remain, and returns the raw
position unchanged otherwise. -/
theorem C3_adjustPosition_characterization (functionWords : List String) (title : String)
    (position : Int) :
    (position = 0 → adjustPosition functionWords title position = position) ∧
    (functionWords = [] → adjustPosition functionWords title position = position) ∧
    (position ≠ 0 → functionWords ≠ [] →
      ((remainingTitleWords functionWords (substrFromZero title position) = [] →
          adjustPosition functionWords title position = 0) ∧
        (remainingTitleWords functionWords (substrFromZero title position) ≠ [] →
          adjustPosition functionWords title position = position))) := by
  refine ⟨?_, ?_, ?_⟩
  · intro h
    unfold adjustPosition
    rw [if_pos h]
  · intro h
    subst h
    simp [adjustPosition]
  · intro h1 h2
    have hlen : ¬ (functionWords.length = 0) := by
      simpa [List.length_eq_zero] using h2
    constructor
    · intro hrem
      unfold adjustPosition
      rw [if_neg h1, if_neg hlen]
      show (if stripFunctionWordsFromStart functionWords (substrFromZero title position) = true
        then (0 : Int) else position) = 0
      rw [if_pos]
      rw [stripFunctionWordsFromStart_eq_remaining, List.isEmpty_iff]
      exact hrem
    · intro hrem
      unfold adjustPosition
      rw [if_neg h1, if_neg hlen]
      show (if stripFunctionWordsFromStart functionWords (substrFromZero title position) = true
        then (0 : Int) else position) = position
      rw [if_neg]
      rw [stripFunctionWordsFromStart_eq_remaining, List.isEmpty_iff]
      exact hrem

/-- Witness for C3: the spec's scenario — title `"The Kitchen Sink Guide"`,
function words `["the"]`, raw position `4` — normalizes to `0`. -/
theorem C3_witness : adjustPosition ["the"] "The Kitchen Sink Guide" 4 = 0 :=
  ((C3_adjustPosition_characterization ["the"] "The Kitchen Sink Guide" 4).2.2
    (by decide) (by decide)).1 (by decide)

/-- C10: for a non-negative raw position, `adjustPosition` returns either
`0` or exactly the input position, and in particular never a value greater
than the input. -/
theorem C10_adjustPosition_range (functionWords : List String) (title : String)
    (position : Int) (h : 0 ≤ position) :
    (adjustPosition functionWords title position = 0 ∨
      adjustPosition functionWords title position = position) ∧
    adjustPosition functionWords title position ≤ position := by
  rcases adjustPosition_eq_zero_or_self functionWords title position with h0 | h0
  · exact ⟨Or.inl h0, by omega⟩
  · exact ⟨Or.inr h0, by omega⟩

/-- Witness for C10 at function words `["the"]`, title
`"The Kitchen Sink Guide"`, position `4`. -/
theorem C10_witness :
    (adjustPosition ["the"] "The Kitchen Sink Guide" 4 = 0 ∨
      adjustPosition ["the"] "The Kitchen Sink Guide" 4 = 4) ∧
    adjustPosition ["the"] "The Kitchen Sink Guide" 4 ≤ 4 :=
  C10_adjustPosition_range ["the"] "The Kitchen Sink Guide" 4 (by decide)

/-- C7: `findKeyphraseInSEOTitle` is deterministic across calls — the result
does not depend on the value the module-level function-word variable had
before the call (the source reassigns it before any use), so a second run on
identical inputs, starting from the state the first run left behind, returns
the identical `MatchResult`. -/
theorem C7_deterministic (paper : Paper) (researcher : Researcher) (s1 s2 : List String) :
    ((findKeyphraseInSEOTitle paper researcher s1).1 =
        (findKeyphraseInSEOTitle paper researcher s2).1) ∧
    ((findKeyphraseInSEOTitle paper researcher
        ((findKeyphraseInSEOTitle paper researcher s1).2)).1 =
      (findKeyphraseInSEOTitle paper researcher s1).1) :=
  ⟨rfl, rfl⟩

/-- C6: on the text `"a mentally normal person"`, the `normalPerson` rule of
`otherAssessments.js` yields no match (its exception predicate vetoes the
occurrence of `"normal person"` preceded by `"mentally"`), while the
`mentallyNormal` rule yields exactly the one match starting at token 1. -/
theorem C6_inclusive_exception_scenario :
    normalPersonMatches "a mentally normal person" = [] ∧
    mentallyNormalMatches "a mentally normal person" = [1] := by
  constructor <;> decide

/-- C2 (the code's actual behaviour): the pre-sanitization fallback of
`findKeyphraseInSEOTitle` is dead code.  The guard `!keywordMatched` is
always false (`wordMatch` returns an object, which is truthy), and the inner
guard reads `.count` off a string, which is `undefined`, so `undefined > 0`
is false.  Consequently, for the keyphrase `".rar"`, which occurs verbatim
in the title `"open a .rar file"` but whose escaped form `\.rar` does not,
the function returns `exactMatchFound = false` and `position = -1` instead
of re-attempting the raw keyphrase. -/
theorem C2_fallback_unreachable :
    (∀ km : WordMatchResult, jsTruthyObj km = true) ∧
    (∀ s : String, jsGtZero (stringCountProp s) = false) ∧
    (0 < countOccurrences (toLocaleLowerCase rarPaper.keyword).toList
        (toLocaleLowerCase rarPaper.title).toList) ∧
    (findKeyphraseInSEOTitle rarPaper rarResearcher []).1 =
      { exactMatchFound := false, allWordsFound := true, position := -1,
        exactMatchKeyphrase := false } :=
  ⟨fun _ => rfl, fun _ => rfl, by decide, by decide⟩

/-- C1: the `MatchResult` invariant — a non-negative `position` only occurs
together with `exactMatchFound = true`, and whenever no exact occurrence of
the (searched form of the) keyphrase exists in the title, `position` is
`-1`, regardless of `allWordsFound`. -/
theorem C1_matchResult_invariant (paper : Paper) (researcher : Researcher)
    (prevFunctionWords : List String) :
    (0 ≤ (findKeyphraseInSEOTitle paper researcher prevFunctionWords).1.position →
      (findKeyphraseInSEOTitle paper researcher prevFunctionWords).1.exactMatchFound = true) ∧
    ((¬ ∃ i, exactOccurrenceAt paper i) →
      (findKeyphraseInSEOTitle paper researcher prevFunctionWords).1.position = -1) := by
  rw [findKeyphraseInSEOTitle_eq]
  constructor
  · simp only [findKeyphraseOutcome]
    split
    · intro _
      rfl
    · intro h
      exact absurd h (by decide : ¬ (0 : Int) ≤ -1)
  · intro hno
    have hcnt : (wordMatch paper.title (selectedKeyword paper) paper.locale false).count = 0 := by
      rw [wordMatch_count_eq]
      refine (countOccurrences_eq_zero_iff _ _).mpr ?_
      intro i hp
      exact hno ⟨i, hp⟩
    simp only [findKeyphraseOutcome]
    rw [if_neg (by omega)]

/-- Witness for C1: on the exact-match scenario the position is `5 ≥ 0` and
the theorem yields `exactMatchFound = true`; on a title without the
keyphrase the theorem yields `position = -1`. -/
theorem C1_witness :
    (findKeyphraseInSEOTitle exactMatchPaper emptyResearcher []).1.exactMatchFound = true ∧
    (findKeyphraseInSEOTitle noMatchPaper emptyResearcher []).1.position = -1 := by
  constructor
  · exact (C1_matchResult_invariant exactMatchPaper emptyResearcher []).1 (by decide)
  · refine (C1_matchResult_invariant noMatchPaper emptyResearcher []).2 ?_
    rintro ⟨i, hi⟩
    have hz : countOccurrences (toLocaleLowerCase (selectedKeyword noMatchPaper)).toList
        (toLocaleLowerCase noMatchPaper.title).toList = 0 := by decide
    exact (countOccurrences_eq_zero_iff _ _).mp hz i hi

/-- C8: totality — `findKeyphraseInSEOTitle` is a total function (its
embedding is a structurally terminating definition), its result always
carries the four `MatchResult` fields, its position is `-1` or a valid
non-negative offset, and the all-false result with position `-1` is actually
attained. -/
theorem C8_totality (paper : Paper) (researcher : Researcher)
    (prevFunctionWords : List String) :
    ((findKeyphraseInSEOTitle paper researcher prevFunctionWords).1.position = -1 ∨
      0 ≤ (findKeyphraseInSEOTitle paper researcher prevFunctionWords).1.position) ∧
    ((findKeyphraseInSEOTitle paper researcher prevFunctionWords).1 =
      { exactMatchFound :=
          (findKeyphraseInSEOTitle paper researcher prevFunctionWords).1.exactMatchFound,
        allWordsFound :=
          (findKeyphraseInSEOTitle paper researcher prevFunctionWords).1.allWordsFound,
        position := (findKeyphraseInSEOTitle paper researcher prevFunctionWords).1.position,
        exactMatchKeyphrase :=
          (findKeyphraseInSEOTitle paper researcher prevFunctionWords).1.exactMatchKeyphrase }) ∧
    ((findKeyphraseInSEOTitle noMatchPaper emptyResearcher []).1 =
      { exactMatchFound := false, allWordsFound := false, position := -1,
        exactMatchKeyphrase := false }) := by
  refine ⟨?_, rfl, by decide⟩
  rw [findKeyphraseInSEOTitle_eq]
  simp only [findKeyphraseOutcome]
  split
  · next hcnt =>
    rcases wordMatch_position_of_count_pos paper.title (selectedKeyword paper) paper.locale
        hcnt with ⟨i, hi⟩
    show adjustPosition researcher.functionWords paper.title
        (wordMatch paper.title (selectedKeyword paper) paper.locale false).position = -1 ∨
      0 ≤ adjustPosition researcher.functionWords paper.title
        (wordMatch paper.title (selectedKeyword paper) paper.locale false).position
    rcases adjustPosition_eq_zero_or_self researcher.functionWords paper.title
        (wordMatch paper.title (selectedKeyword paper) paper.locale false).position with h0 | h0
    · right
      omega
    · right
      rw [h0, hi]
      omega
  · left
    rfl

/-- C9: `exactMatchKeyphrase` is true exactly when the raw keyphrase is a
quote-wrapped exact-match request (escaping does not affect the wrapping
quotes), and the flag is independent of the title — it is set before any
search, so it holds for a quoted keyphrase even when nothing matches. -/
theorem C9_exactMatchKeyphrase_flag (paper : Paper) (researcher : Researcher)
    (prevFunctionWords : List String) :
    ((findKeyphraseInSEOTitle paper researcher prevFunctionWords).1.exactMatchKeyphrase =
        (processExactMatchRequest (escapeRegExp paper.keyword)).exactMatchRequested) ∧
    ((processExactMatchRequest (escapeRegExp paper.keyword)).exactMatchRequested =
        (processExactMatchRequest paper.keyword).exactMatchRequested) ∧
    (∀ t' : String,
      (findKeyphraseInSEOTitle { paper with title := t' } researcher
          prevFunctionWords).1.exactMatchKeyphrase =
        (findKeyphraseInSEOTitle paper researcher prevFunctionWords).1.exactMatchKeyphrase) := by
  refine ⟨?_, processExactMatchRequest_escapeRegExp paper.keyword, ?_⟩
  · rw [findKeyphraseInSEOTitle_eq]
    simp only [findKeyphraseOutcome]
    split <;> rfl
  · intro t'
    rw [findKeyphraseInSEOTitle_eq, findKeyphraseInSEOTitle_eq]
    simp only [findKeyphraseOutcome]
    split <;> split <;> rfl

/-- C4: when the first pass finds no exact occurrence, `allWordsFound` is
true exactly when the morphology coverage of the keyphrase's content words
is exactly 100 percent, and this coverage uses only the literal keyphrase's
own forms — the synonym forms are irrelevant to it. -/
theorem C4_coverage_iff (paper : Paper) (researcher : Researcher)
    (prevFunctionWords : List String)
    (h : (wordMatch paper.title (selectedKeyword paper) paper.locale false).count = 0) :
    ((findKeyphraseInSEOTitle paper researcher prevFunctionWords).1.allWordsFound = true ↔
      (findTopicFormsInString researcher.morphology paper.title false paper.locale
          false).percentWordMatches = 100) ∧
    (∀ synonymsForms : List (List (List String)),
      findTopicFormsInString
          { keyphraseForms := researcher.morphology.keyphraseForms,
            synonymsForms := synonymsForms } paper.title false paper.locale false =
        findTopicFormsInString researcher.morphology paper.title false paper.locale false) := by
  constructor
  · rw [findKeyphraseInSEOTitle_eq]
    simp only [findKeyphraseOutcome]
    rw [if_neg (by omega)]
    simp
  · intro synonymsForms
    rfl

/-- Witness for C4: the coverage-only scenario — title
`"Sinks for Kitchens"`, keyphrase `"kitchen sink"`, forms
`kitchen/kitchens` and `sink/sinks` — has no exact occurrence and full
coverage, so `allWordsFound = true`. -/
theorem C4_witness :
    (findKeyphraseInSEOTitle coveragePaper coverageResearcher []).1.allWordsFound = true :=
  ((C4_coverage_iff coveragePaper coverageResearcher [] (by decide)).1).mpr (by decide)

/-- C5 counterexample: the function-word membership test does not case-fold
the entries of the function-word list.  The token `"the"` (already
lowercase, trimming and folding leave it unchanged) is not stripped by the
list `["The"]`, although the claim's both-sides folding would strip it; with
the lowercase entry `["the"]` it is stripped. -/
theorem C5_counterexample :
    toLocaleLowerCase (trimString "the") = "the" ∧
    stripFunctionWordsFromStart ["The"] "the" = false ∧
    stripFunctionWordsFromStart ["the"] "the" = true := by
  refine ⟨by decide, by decide, by decide⟩

/-- C5 (amended): the membership test lowercases each token (trimmed, with
locale-aware lowercasing) but compares the result verbatim with the
function-word list entries; consequently the string consists of function
words only exactly when every token's folded form is literally in the list,
and entries containing an uppercase character can never match and are inert. -/
theorem C5_membership_amended (functionWords : List String) (str : String) :
    (stripFunctionWordsFromStart functionWords str = true ↔
      ∀ w ∈ getWords (toLocaleLowerCase (toLocaleLowerCase str)) WORD_BOUNDARY_WITH_HYPHEN,
        toLocaleLowerCase (trimString w) ∈ functionWords) ∧
    (stripFunctionWordsFromStart (functionWords.filter (fun e => ! hasUpperChar e)) str =
      stripFunctionWordsFromStart functionWords str) := by
  constructor
  · rw [stripFunctionWordsFromStart_eq_remaining, remainingTitleWords]
    rw [List.isEmpty_iff, List.filter_eq_nil_iff]
    constructor
    · intro hall w hw
      have := hall w hw
      simpa using this
    · intro hall w hw
      simpa using hall w hw
  · rw [stripFunctionWordsFromStart_eq_remaining, stripFunctionWordsFromStart_eq_remaining]
    rw [remainingTitleWords, remainingTitleWords]
    congr 1
    apply List.filter_congr
    intro w _
    have hkey : hasUpperChar (toLocaleLowerCase (trimString w)) = false :=
      hasUpperChar_toLocaleLowerCase (trimString w)
    by_cases hmem : toLocaleLowerCase (trimString w) ∈ functionWords
    · have hmem2 : toLocaleLowerCase (trimString w) ∈
          functionWords.filter (fun e => ! hasUpperChar e) := by
        rw [List.mem_filter]
        exact ⟨hmem, by rw [hkey]; rfl⟩
      simp [hmem, hmem2]
    · have hmem2 : toLocaleLowerCase (trimString w) ∉
          functionWords.filter (fun e => ! hasUpperChar e) := by
        rw [List.mem_filter]
        rintro ⟨hmem', _⟩
        exact hmem hmem'
      simp [hmem, hmem2]

/-- Witness for C5 (amended): the folded token `"the"` of the string
`"The"` is in the list `["the"]`, so the string is all function words. -/
theorem C5_witness : stripFunctionWordsFromStart ["the"] "The" = true :=
  (C5_membership_amended ["the"] "The").1.mpr (by decide)
end Claims

end WordpressSeo
